import Mathlib

/-!
Verification of the ecexams-dl crawler core against its specification.

The Python source (`app.py`, `ecexams_scraper.py`) is shallowly embedded:
pure text transformations become functions on `List Char` / `String`,
the crawl pipeline becomes pure functions parameterised by oracles for the
network (one list of per-attempt results per URL, mirroring the retry loop),
and the filesystem becomes an explicit record of directories and files.
-/

namespace Ecexams

/-! ## Name sanitizer (`app.py` `_sanitise`, `ecexams_scraper.py` `sanitise`)

`re.sub(r'[\\/*?:"<>|]', "", name)` removes the illegal characters,
`re.sub(r"\s+", " ", name)` replaces each maximal whitespace run with a
single space, `.strip()` trims whitespace at both ends, `[:120]` truncates. -/

def illegalChars : List Char := ['\\', '/', '*', '?', ':', '"', '<', '>', '|']

def isIllegal (c : Char) : Bool := illegalChars.contains c

/-- ASCII whitespace class of Python's regex `\s` and of `str.strip()`. -/
def isPySpace (c : Char) : Bool :=
  c = ' ' || c = '\t' || c = '\n' || c = '\r' || c = '\x0b' || c = '\x0c'

/-- `re.sub(r"\s+", " ", ·)`: the flag records whether the previous character
was part of a whitespace run already replaced by one space. -/
def collapseWs : Bool → List Char → List Char
  | _, [] => []
  | prevWs, c :: cs =>
    if isPySpace c then
      if prevWs then collapseWs true cs else ' ' :: collapseWs true cs
    else c :: collapseWs false cs

/-- Python `str.strip()`. -/
def pyStrip (l : List Char) : List Char :=
  ((l.dropWhile isPySpace).reverse.dropWhile isPySpace).reverse

def sanitise (l : List Char) : List Char :=
  (pyStrip (collapseWs false (l.filter (fun c => !isIllegal c)))).take 120

def sanitiseS (s : String) : String := (sanitise s.toList).asString

/-! ## Classifier (`detect_grade` / `detect_year`, `app.py` `_grade` / `_year`)

`re.search(r"gr(?:ade)?\.?\s*(\d+)", text.lower())`: leftmost match wins; at a
match position the greedy options are forced (if "ade" literally follows "gr"
and the greedy branch fails, the next character is 'a', which can satisfy
neither `\.?`-consumption, `\s*` nor `\d`, so the non-greedy branch fails too),
hence the scan below is exactly the regex's behaviour. -/

def tryGradeAt : List Char → Option (List Char)
  | 'g' :: 'r' :: rest =>
    let r1 := match rest with
      | 'a' :: 'd' :: 'e' :: r => r
      | _ => rest
    let r2 := match r1 with
      | '.' :: r => r
      | _ => r1
    let digits := (r2.dropWhile isPySpace).takeWhile Char.isDigit
    if digits.isEmpty then none else some digits
  | _ => none

def findGrade : List Char → Option (List Char)
  | [] => none
  | c :: cs =>
    match tryGradeAt (c :: cs) with
    | some d => some d
    | none => findGrade cs

def lowerL (l : List Char) : List Char := l.map Char.toLower

/-- Python's substring test `sub in l`. -/
def containsSub : List Char → List Char → Bool
  | sub, [] => sub.isEmpty
  | sub, c :: cs => List.isPrefixOf sub (c :: cs) || containsSub sub cs

def detect_grade (text : String) : String :=
  let t := lowerL text.toList
  match findGrade t with
  | some digits => "Grade " ++ digits.asString
  | none =>
    if containsSub "gec".toList t || containsSub "general education certificate".toList t then
      "Grade 9 (GEC)"
    else if containsSub "annual national assessment".toList t || containsSub " ana".toList t then
      "ANA (Grades 1-6 & 9)"
    else "Other"

/-- Word character of the regex `\b` boundary (ASCII). -/
def isWordChar (c : Char) : Bool := c.isAlphanum || c = '_'

/-- Scan for the leftmost match of `\b(20\d{2})\b`; `prev` is the character
just before the current position (none at the start of the string). -/
def findYear : Option Char → List Char → Option (List Char)
  | prev, c1 :: c2 :: c3 :: c4 :: rest =>
    if (match prev with | none => true | some p => !isWordChar p)
        && c1 = '2' && c2 = '0' && c3.isDigit && c4.isDigit
        && (match rest.head? with | none => true | some n => !isWordChar n) then
      some [c1, c2, c3, c4]
    else findYear (some c1) (c2 :: c3 :: c4 :: rest)
  | _, _ => none

def detect_year (text : String) : String :=
  match findYear none text.toList with
  | some y => y.asString
  | none => "Unknown Year"

/-- `app.py` line 101 / `ecexams_scraper.py` lines 154-156: the year inferred
from the visible text, falling back to the href when the text yields none. -/
def inferYear (linkText href : String) : String :=
  if detect_year linkText ≠ "Unknown Year" then detect_year linkText else detect_year href

/-! ## URL helpers

`urljoin` covers the cases arising for this site (absolute URL, host-relative
path, page-relative path); `urlPath` models `urlparse(·).path` (strip fragment
and query, strip scheme and network location of absolute http(s) URLs);
`pathSuffix` and `pathStem` model `pathlib.Path(·).suffix` / `.stem`. -/

def BASE_URL : String := "https://www.ecexams.co.za/"
def INDEX_URL : String := "https://www.ecexams.co.za/ExaminationPapers.htm"
def MAX_RETRY : Nat := 3

def startsWithL (pre l : List Char) : Bool := List.isPrefixOf pre l

def endsWithL (suf l : List Char) : Bool := List.isSuffixOf suf l

def urljoin (base : String) (href : List Char) : String :=
  if startsWithL "http://".toList href || startsWithL "https://".toList href then
    href.asString
  else if startsWithL "/".toList href then
    "https://www.ecexams.co.za" ++ href.asString
  else
    ((base.toList.reverse.dropWhile (fun c => c ≠ '/')).reverse ++ href).asString

def urlPath (href : List Char) : List Char :=
  let noFrag := href.takeWhile (fun c => c ≠ '#')
  let noQuery := noFrag.takeWhile (fun c => c ≠ '?')
  if startsWithL "http://".toList noQuery then
    (noQuery.drop 7).dropWhile (fun c => c ≠ '/')
  else if startsWithL "https://".toList noQuery then
    (noQuery.drop 8).dropWhile (fun c => c ≠ '/')
  else noQuery

/-- The final path component (after the last '/'). -/
def lastComp (p : List Char) : List Char := (p.reverse.takeWhile (fun c => c ≠ '/')).reverse

/-- `pathlib`: `i = name.rfind('.')`; the suffix is `name[i:]` when
`0 < i < len(name) - 1`, else the empty string. -/
def pathSuffix (p : List Char) : List Char :=
  let name := lastComp p
  let r := name.reverse
  let ext := r.takeWhile (fun c => c ≠ '.')
  if 0 < ext.length && ext.length + 2 ≤ r.length then '.' :: ext.reverse else []

def pathStem (p : List Char) : List Char :=
  let name := lastComp p
  name.take (name.length - (pathSuffix p).length)

/-! ## Data model -/

/-- One `<a href=...>` element as seen by the scraper: the (raw) `href`
attribute and the visible text `get_text(separator=" ", strip=True)`. -/
structure Link where
  href : String
  text : String
deriving DecidableEq, Repr

structure ExamSession where
  url : String
  title : String
  grade : String
  year : String
deriving DecidableEq, Repr

structure FileInfo where
  url : String
  filename : String
  exam_session : ExamSession
deriving DecidableEq, Repr

inductive Event
  | info (msg : String)
  | scan (msg : String)
  | download (msg : String)
  | warn (msg : String)
  | error (msg : String)
  | dryrun (msg : String)
  | progressScanned (scanned : Nat)
  | progress (done total : Nat)
  | done (dl skip fail dry : Nat)
deriving DecidableEq, Repr

inductive Outcome
  | downloaded
  | skipped
  | failed
  | dryrun
deriving DecidableEq, Repr

structure Counts where
  dl : Nat
  skip : Nat
  fail : Nat
  dry : Nat
deriving DecidableEq, Repr

def Counts.zero : Counts := ⟨0, 0, 0, 0⟩

def Counts.add (c : Counts) : Outcome → Counts
  | .downloaded => { c with dl := c.dl + 1 }
  | .skipped => { c with skip := c.skip + 1 }
  | .failed => { c with fail := c.fail + 1 }
  | .dryrun => { c with dry := c.dry + 1 }

def Counts.total (c : Counts) : Nat := c.dl + c.skip + c.fail + c.dry

/-- The destination tree: directories and files, each named by its list of
path components from the output root. -/
structure FS where
  dirs : List (List String)
  files : List (List String)
deriving DecidableEq, Repr

/-! ## Fetch client (`app.py` `_get`)

The network is an oracle giving, per URL, the outcome of each successive
attempt of the retry loop (a real run has exactly `MAX_RETRY` entries).
Each failed attempt emits a `warn` event; exhaustion returns `none`. -/

def getModel (url : String) : List (Option α) → Option α × List Event
  | [] => (none, [])
  | some r :: _ => (some r, [])
  | none :: rest =>
    let (res, evs) := getModel url rest
    (res, Event.warn url :: evs)

/-! ## Index extractor (`app.py` `scrape_index` lines 76-115) -/

/-- Keep-condition of `app.py` line 105:
`if grade_filters and not any(gf in grade for gf in grade_filters): continue`.
An empty filter list matches everything; a non-empty one matches when some
filter string is a **substring** of the grade label. -/
def gradeMatches (grade_filters : List String) (grade : String) : Bool :=
  grade_filters.isEmpty || grade_filters.any (fun gf => containsSub gf.toList grade.toList)

/-- Keep-condition of `app.py` line 107:
`if year_filters and year not in year_filters: continue`.
An empty filter list matches everything; a non-empty one matches by
membership. -/
def yearMatches (year_filters : List String) (year : String) : Bool :=
  year_filters.isEmpty || year_filters.contains year

def indexLoop (gfs yfs : List String) : List Link → List ExamSession → List ExamSession
  | [], acc => acc
  | a :: rest, acc =>
    let hrefL := pyStrip a.href.toList
    if startsWithL "mailto:".toList hrefL || startsWithL "http://bit.ly".toList hrefL
        || startsWithL "https://bit.ly".toList hrefL || startsWithL "#".toList hrefL then
      indexLoop gfs yfs rest acc
    else if !endsWithL ".htm".toList hrefL then
      indexLoop gfs yfs rest acc
    else
      let full_url := urljoin BASE_URL hrefL
      if full_url = INDEX_URL then indexLoop gfs yfs rest acc
      else if a.text = "" || a.text.length < 5 then indexLoop gfs yfs rest acc
      else
        let year := inferYear a.text hrefL.asString
        let grade := detect_grade (a.text ++ " " ++ hrefL.asString)
        let title := sanitiseS a.text
        if !gradeMatches gfs grade then indexLoop gfs yfs rest acc
        else if !yearMatches yfs year then indexLoop gfs yfs rest acc
        else if acc.any (fun s => s.url = full_url) then indexLoop gfs yfs rest acc
        else indexLoop gfs yfs rest (acc ++ [⟨full_url, title, grade, year⟩])

/-- `scrape_index`: fetch the index page (with retries), scan its links.
`pages url` gives the retry-attempt outcomes of fetching `url`. -/
def scrape_index (pages : String → List (Option (List Link))) (gfs yfs : List String) :
    List Event × List ExamSession :=
  let (r, warns) := getModel INDEX_URL (pages INDEX_URL)
  match r with
  | none =>
    (Event.info "Fetching index page" :: warns ++ [Event.error "Could not fetch index page."], [])
  | some links =>
    let ss := indexLoop gfs yfs links []
    (Event.info "Fetching index page" :: warns ++ [Event.info "Found exam sessions"], ss)

/-! ## Session extractor (`app.py` `scrape_session` lines 118-144) -/

def docExts : List (List Char) := [".pdf".toList, ".zip".toList, ".docx".toList]

/-- `app.py` lines 139-141: sanitise the raw name and append the extension
unless the name already ends in it (case-insensitive check). -/
def mkFilename (raw : String) (ext : List Char) : String :=
  let clean := sanitise raw.toList
  if endsWithL ext (lowerL clean) then clean.asString else (clean ++ ext).asString

/-- `app.py` line 130: the lowercased extension of a link's (stripped) href,
`Path(urlparse(href).path).suffix.lower()`. -/
def linkExt (a : Link) : List Char := lowerL (pathSuffix (urlPath (pyStrip a.href.toList)))

/-- `app.py` line 138: the raw name of a link — its visible text, falling
back to the URL's path stem when the text is empty. -/
def linkRaw (a : Link) : String :=
  if a.text = "" then (pathStem (urlPath (pyStrip a.href.toList))).asString else a.text

def sessLoop (es : ExamSession) : List Link → List String → List FileInfo
  | [], _ => []
  | a :: rest, seen =>
    if !docExts.contains (linkExt a) then sessLoop es rest seen
    else
      let file_url := urljoin es.url (pyStrip a.href.toList)
      if seen.contains file_url then sessLoop es rest seen
      else ⟨file_url, mkFilename (linkRaw a) (linkExt a), es⟩ :: sessLoop es rest (file_url :: seen)

def scrape_session (pages : String → List (Option (List Link))) (es : ExamSession) :
    List Event × List FileInfo :=
  let (r, warns) := getModel es.url (pages es.url)
  match r with
  | none => (Event.scan es.title :: warns, [])
  | some links => (Event.scan es.title :: warns, sessLoop es links [])

/-- The scan phase of `run_job` (lines 195-199): extract each session's files,
emitting a progress event with the running total after each session. -/
def scanSessions (pages : String → List (Option (List Link))) :
    List ExamSession → Nat → List Event × List FileInfo
  | [], _ => ([], [])
  | es :: rest, already =>
    let (evs, files) := scrape_session pages es
    let (evsR, filesR) := scanSessions pages rest (already + files.length)
    (evs ++ [Event.progressScanned (already + files.length)] ++ evsR, files ++ filesR)

/-! ## Download orchestrator (`app.py` `download_file` lines 147-167,
`run_job` lines 181-230) -/

def destDirOf (root : String) (fi : FileInfo) : List String :=
  [root, sanitiseS fi.exam_session.grade, fi.exam_session.year, sanitiseS fi.exam_session.title]

def destPathOf (root : String) (fi : FileInfo) : List String :=
  destDirOf root fi ++ [fi.filename]

/-- The nonempty prefixes of a path: the chain of directories that
`mkdir(parents=True)` creates. -/
def prefixesOf : List String → List (List String)
  | [] => []
  | x :: xs => [x] :: (prefixesOf xs).map (x :: ·)

/-- Insert a directory if absent (`exist_ok=True`). -/
def insertDir (ds : List (List String)) (d : List String) : List (List String) :=
  if d ∈ ds then ds else ds ++ [d]

def addDirs (new : List (List String)) (ds : List (List String)) : List (List String) :=
  new.foldl insertDir ds

structure FileResult where
  outcome : Outcome
  fs : FS
  events : List Event
  fetched : List String
deriving DecidableEq, Repr

def download_file (net : String → List (Option Unit)) (root : String) (dry_run : Bool)
    (fs : FS) (fi : FileInfo) : FileResult :=
  let dest_dir := destDirOf root fi
  let dest := destPathOf root fi
  if dry_run then
    ⟨.dryrun, fs, [Event.dryrun (String.intercalate "/" dest)], []⟩
  else if dest ∈ fs.files then
    ⟨.skipped, fs, [], []⟩
  else
    let fs1 : FS := { fs with dirs := addDirs (prefixesOf dest_dir) fs.dirs }
    let (r, warns) := getModel fi.url (net fi.url)
    match r with
    | none => ⟨.failed, fs1, warns ++ [Event.error fi.url], [fi.url]⟩
    | some _ =>
      ⟨.downloaded, { fs1 with files := fs1.files ++ [dest] },
        warns ++ [Event.download fi.filename], [fi.url]⟩

structure DLResult where
  counts : Counts
  fs : FS
  events : List Event
  fetched : List String
deriving DecidableEq, Repr

def dlLoop (net : String → List (Option Unit)) (root : String) (dry_run : Bool) (total : Nat) :
    List FileInfo → FS → Counts → Nat → DLResult
  | [], fs, c, _ => ⟨c, fs, [], []⟩
  | fi :: rest, fs, c, done =>
    let r := download_file net root dry_run fs fi
    let res := dlLoop net root dry_run total rest r.fs (c.add r.outcome) (done + 1)
    ⟨res.counts, res.fs, r.events ++ [Event.progress (done + 1) total] ++ res.events,
      r.fetched ++ res.fetched⟩

def runDownloads (net : String → List (Option Unit)) (root : String) (dry_run : Bool)
    (files : List FileInfo) (fs : FS) : DLResult :=
  dlLoop net root dry_run files.length files fs Counts.zero 0

structure JobResult where
  events : List Event
  counts : Counts
  fs : FS
deriving DecidableEq, Repr

/-- `run_job`: index extraction, per-session scan, concurrent downloads
(modelled as a fold over the file list), terminal `done` event. -/
def run_job (pages : String → List (Option (List Link)))
    (net : String → List (Option Unit)) (gfs yfs : List String)
    (root : String) (dry_run : Bool) (fs : FS) : JobResult :=
  let (evs1, sessions) := scrape_index pages gfs yfs
  if sessions.isEmpty then
    ⟨evs1 ++ [Event.done 0 0 0 0], Counts.zero, fs⟩
  else
    let (evs2, all_files) := scanSessions pages sessions 0
    let r := runDownloads net root dry_run all_files fs
    ⟨evs1 ++ evs2 ++ [Event.info "Total files found"] ++ r.events
        ++ [Event.done r.counts.dl r.counts.skip r.counts.fail r.counts.dry],
      r.counts, r.fs⟩

/-! ## CLI pipeline (`ecexams_scraper.py`)

The CLI's `scrape_index` (lines 119-178) performs the same link scan as the
web version — its single optional `--grade` / `--year` filters have the same
semantics as one-element filter lists (substring test for the grade, line
161; equality for the year, line 163) — but on fetch failure it RAISES
`RuntimeError("Could not fetch the index page.")` (line 132) instead of
emitting an error event and returning. The raise is modelled as
`Except.error`. `main` (lines 267-340) calls `scrape_index` outside any
try/except, so the exception propagates out of `main`: an uncaught
exception, modelled by `cli_main` returning `Except.error`. -/

def cli_scrape_index (pages : String → List (Option (List Link)))
    (grade_filter year_filter : Option String) : Except String (List ExamSession) :=
  match (getModel INDEX_URL (pages INDEX_URL)).1 with
  | none => Except.error "Could not fetch the index page."
  | some links => Except.ok (indexLoop grade_filter.toList year_filter.toList links [])

def cli_main (pages : String → List (Option (List Link)))
    (net : String → List (Option Unit)) (grade_filter year_filter : Option String)
    (root : String) (dry_run : Bool) (fs : FS) : Except String (Counts × FS) :=
  match cli_scrape_index pages grade_filter year_filter with
  | Except.error e => Except.error e
  | Except.ok sessions =>
    if sessions.isEmpty then Except.ok (Counts.zero, fs)
    else
      let all_files := (scanSessions pages sessions 0).2
      if all_files.isEmpty then Except.ok (Counts.zero, fs)
      else
        let r := runDownloads net root dry_run all_files fs
        Except.ok (r.counts, r.fs)

/-! ## Thread-count handling

`app.py` line 251: `threads = max(1, min(10, int(data.get("threads", 3))))`.
`ecexams_scraper.py` lines 277 and 317: `--threads` is parsed as an int and
passed to `ThreadPoolExecutor(max_workers=args.threads)` unchanged. -/

def webThreads (v : Int) : Int := max 1 (min 10 v)

def cliWorkers (v : Int) : Int := v

/-! ## Stop-flag model (`app.py` `/stop` lines 291-295, `run_job` lines 205-217)

State of one job's download stage: pending descriptors, in-flight
descriptors, completed descriptors, and the shared `_job_active` flag.
`dispatch` hands the next pending descriptor to a worker — the submission
loop `futures = {pool.submit(_task, fi): fi for fi in all_files}` never reads
`_job_active`, so the step carries no guard on `active`. `complete` finishes
any in-flight descriptor (`as_completed` order is arbitrary). `stop` is the
`/stop` endpoint: it clears the flag and nothing else. -/

structure JobState where
  pending : List Nat
  inflight : List Nat
  completed : List Nat
  active : Bool
deriving DecidableEq, Repr

inductive Step : JobState → JobState → Prop
  | dispatch (f : Nat) (rest infl comp : List Nat) (act : Bool) :
      Step ⟨f :: rest, infl, comp, act⟩ ⟨rest, f :: infl, comp, act⟩
  | complete (f : Nat) (pend l₁ l₂ comp : List Nat) (act : Bool) :
      Step ⟨pend, l₁ ++ f :: l₂, comp, act⟩ ⟨pend, l₁ ++ l₂, f :: comp, act⟩
  | stop (pend infl comp : List Nat) (act : Bool) :
      Step ⟨pend, infl, comp, act⟩ ⟨pend, infl, comp, false⟩

/-! ## Helper lemmas -/

lemma Counts.total_add (c : Counts) (o : Outcome) : (c.add o).total = c.total + 1 := by
  cases o <;> simp [Counts.add, Counts.total] <;> omega

lemma dlLoop_counts_total (net : String → List (Option Unit)) (root : String)
    (dry_run : Bool) (total : Nat) :
    ∀ (files : List FileInfo) (fs : FS) (c : Counts) (d : Nat),
      (dlLoop net root dry_run total files fs c d).counts.total = c.total + files.length := by
  intro files
  induction files with
  | nil => intro fs c d; simp [dlLoop]
  | cons fi rest ih =>
    intro fs c d
    simp only [dlLoop]
    rw [ih]
    rw [Counts.total_add]
    simp [List.length_cons]
    omega

lemma mem_foldl_insertDir (x : List String) :
    ∀ (new : List (List String)) (ds : List (List String)),
      x ∈ ds → x ∈ new.foldl insertDir ds := by
  intro new
  induction new with
  | nil => intro ds h; simpa using h
  | cons n rest ih =>
    intro ds h
    simp only [List.foldl_cons]
    apply ih
    unfold insertDir
    split
    · exact h
    · exact List.mem_append_left _ h

lemma mem_addDirs_of_mem (x : List String) :
    ∀ (new : List (List String)) (ds : List (List String)),
      x ∈ new → x ∈ addDirs new ds := by
  intro new
  induction new with
  | nil => intro ds h; simp at h
  | cons n rest ih =>
    intro ds h
    rcases List.mem_cons.1 h with rfl | h
    · unfold addDirs
      simp only [List.foldl_cons]
      apply mem_foldl_insertDir
      unfold insertDir
      split
      · assumption
      · exact List.mem_append_right _ (by simp)
    · unfold addDirs
      simp only [List.foldl_cons]
      exact ih (insertDir ds n) h

lemma self_mem_prefixesOf : ∀ (p : List String), p ≠ [] → p ∈ prefixesOf p := by
  intro p
  induction p with
  | nil => intro h; exact absurd rfl h
  | cons x xs ih =>
    intro _
    cases xs with
    | nil => simp [prefixesOf]
    | cons y ys =>
      simp only [prefixesOf, List.mem_cons]
      right
      exact List.mem_map.2 ⟨y :: ys, ih (by simp), rfl⟩

/-! ## Claim theorems -/

/-- C6 (confirmed). Count conservation: after the download stage completes,
`downloaded + skipped + failed + dry_run` equals the number of file
descriptors processed — each descriptor contributes exactly one outcome. -/
theorem count_conservation (net : String → List (Option Unit)) (root : String)
    (dry_run : Bool) (files : List FileInfo) (fs : FS) :
    (runDownloads net root dry_run files fs).counts.dl
      + (runDownloads net root dry_run files fs).counts.skip
      + (runDownloads net root dry_run files fs).counts.fail
      + (runDownloads net root dry_run files fs).counts.dry = files.length := by
  have h := dlLoop_counts_total net root dry_run files.length files fs Counts.zero 0
  simpa [runDownloads, Counts.total, Counts.zero] using h

/-- The web job (`app.py` `run_job`) on an unreachable index: the trace is
the fetch-info event, one warning per failed attempt, an error event, and a
terminal done event with all-zero counts; counts zero, filesystem
untouched. -/
lemma run_job_index_unreachable
    (pages : String → List (Option (List Link))) (net : String → List (Option Unit))
    (gfs yfs : List String) (root : String) (dry_run : Bool) (fs : FS)
    (h : pages INDEX_URL = List.replicate MAX_RETRY none) :
    run_job pages net gfs yfs root dry_run fs =
      ⟨[Event.info "Fetching index page", Event.warn INDEX_URL, Event.warn INDEX_URL,
        Event.warn INDEX_URL, Event.error "Could not fetch index page.",
        Event.done 0 0 0 0], Counts.zero, fs⟩ := by
  simp [run_job, scrape_index, h, MAX_RETRY, getModel, List.replicate]

/-- C2 counterexample: in the CLI, an unreachable index does *not* surface
as an error event followed by a done event — `scrape_index` raises
`RuntimeError` (`ecexams_scraper.py` line 132) and `main` never catches it,
so at this concrete failed-every-retry oracle the crawl ends in an uncaught
exception (`Except.error`) with no terminal summary. -/
theorem cli_index_unreachable_uncaught :
    cli_main (fun _ => List.replicate MAX_RETRY none) (fun _ => []) none none
        "downloads" false ⟨[], []⟩ = Except.error "Could not fetch the index page." := by
  rfl

/-- C2 (amended). If the index page is unreachable after all retries, no
work is performed, but the failure surfaces differently in the two
front-ends: the web job aborts with an error event followed by a terminal
done event carrying all-zero counts, while the CLI raises an uncaught
RuntimeError out of `main` — a process crash with no terminal summary. -/
theorem index_unreachable_web_event_pair_cli_raises
    (pages : String → List (Option (List Link))) (net : String → List (Option Unit))
    (gfs yfs : List String) (gf yf : Option String)
    (root : String) (dry_run : Bool) (fs : FS)
    (h : pages INDEX_URL = List.replicate MAX_RETRY none) :
    run_job pages net gfs yfs root dry_run fs =
      ⟨[Event.info "Fetching index page", Event.warn INDEX_URL, Event.warn INDEX_URL,
        Event.warn INDEX_URL, Event.error "Could not fetch index page.",
        Event.done 0 0 0 0], Counts.zero, fs⟩ ∧
    cli_main pages net gf yf root dry_run fs =
      Except.error "Could not fetch the index page." := by
  refine ⟨run_job_index_unreachable pages net gfs yfs root dry_run fs h, ?_⟩
  simp [cli_main, cli_scrape_index, h, MAX_RETRY, getModel, List.replicate]

/-- Witness for C2 at a concrete oracle whose every attempt fails. -/
theorem index_unreachable_web_event_pair_cli_raises_witness :
    run_job (fun _ => List.replicate MAX_RETRY none) (fun _ => []) [] [] "downloads" false
        ⟨[], []⟩ =
      ⟨[Event.info "Fetching index page", Event.warn INDEX_URL, Event.warn INDEX_URL,
        Event.warn INDEX_URL, Event.error "Could not fetch index page.",
        Event.done 0 0 0 0], Counts.zero, ⟨[], []⟩⟩ ∧
    cli_main (fun _ => List.replicate MAX_RETRY none) (fun _ => []) none none "downloads" false
        ⟨[], []⟩ = Except.error "Could not fetch the index page." :=
  index_unreachable_web_event_pair_cli_raises (fun _ => List.replicate MAX_RETRY none)
    (fun _ => []) [] [] none none "downloads" false ⟨[], []⟩ rfl

/-- A descriptor whose destination already exists is skipped with no network
call and no filesystem change (`app.py` lines 156-157). -/
lemma download_file_skips_existing (net : String → List (Option Unit)) (root : String)
    (fs : FS) (fi : FileInfo) (h : destPathOf root fi ∈ fs.files) :
    download_file net root false fs fi = ⟨.skipped, fs, [], []⟩ := by
  simp [download_file, h]

lemma dlLoop_all_present (net : String → List (Option Unit)) (root : String) (total : Nat) :
    ∀ (files : List FileInfo) (fs : FS) (c : Counts) (d : Nat),
      (∀ fi ∈ files, destPathOf root fi ∈ fs.files) →
      (dlLoop net root false total files fs c d).counts
          = ⟨c.dl, c.skip + files.length, c.fail, c.dry⟩ ∧
        (dlLoop net root false total files fs c d).fs = fs ∧
        (dlLoop net root false total files fs c d).fetched = [] := by
  intro files
  induction files with
  | nil => intro fs c d _; simp [dlLoop]
  | cons fi rest ih =>
    intro fs c d hall
    have hfi : destPathOf root fi ∈ fs.files := hall fi (by simp)
    have hrest : ∀ f ∈ rest, destPathOf root f ∈ fs.files := fun f hf => hall f (by simp [hf])
    simp only [dlLoop, download_file_skips_existing net root fs fi hfi]
    obtain ⟨h1, h2, h3⟩ := ih fs (c.add .skipped) (d + 1) hrest
    refine ⟨?_, h2, by simp [h3]⟩
    rw [h1]
    simp [Counts.add]
    omega

/-- C3 (confirmed). Idempotent skip-if-exists: in non-dry-run mode a
descriptor whose destination exists is recorded `skipped` with no fetch; a
second run over a file list whose destinations all exist yields zero
`downloaded` outcomes (all skipped), no fetches and no filesystem change. -/
theorem second_run_all_skipped (net : String → List (Option Unit)) (root : String)
    (files : List FileInfo) (fs : FS)
    (hall : ∀ fi ∈ files, destPathOf root fi ∈ fs.files) :
    (runDownloads net root false files fs).counts = ⟨0, files.length, 0, 0⟩ ∧
    (runDownloads net root false files fs).fs = fs ∧
    (runDownloads net root false files fs).fetched = [] ∧
    (∀ (fi : FileInfo) (fs0 : FS), destPathOf root fi ∈ fs0.files →
      download_file net root false fs0 fi = ⟨.skipped, fs0, [], []⟩) := by
  obtain ⟨h1, h2, h3⟩ :=
    dlLoop_all_present net root files.length files fs Counts.zero 0 hall
  exact ⟨by simpa [runDownloads, Counts.zero] using h1, by simpa [runDownloads] using h2,
    by simpa [runDownloads] using h3, fun fi fs0 h => download_file_skips_existing net root fs0 fi h⟩

/-- C8 counterexample: the CLI (`ecexams_scraper.py` line 317) passes the
caller-supplied thread count to the worker pool unclamped, so a value of 50
yields 50 workers, not the clamped 10 of the claim. -/
theorem cli_threads_not_clamped :
    cliWorkers 50 = 50 ∧ webThreads 50 = 10 ∧ cliWorkers 50 ≠ webThreads 50 := by
  refine ⟨rfl, ?_, ?_⟩ <;> decide

/-- C8 (amended). The web interface (`app.py` line 251) clamps the
caller-supplied concurrency into [1,10] — values below 1 become 1, above 10
become 10, in-range values pass through; the CLI uses the value unclamped. -/
theorem web_threads_clamped (v : Int) :
    (1 ≤ webThreads v ∧ webThreads v ≤ 10 ∧ (v ≤ 1 → webThreads v = 1) ∧
      (10 ≤ v → webThreads v = 10) ∧ (1 ≤ v → v ≤ 10 → webThreads v = v)) ∧
    cliWorkers v = v := by
  refine ⟨⟨?_, ?_, ?_, ?_, ?_⟩, rfl⟩ <;>
    (intros; simp only [webThreads, max_def, min_def]; split_ifs <;> omega)

/-- Witness for C8's implications at concrete thread counts. -/
theorem web_threads_clamped_witness :
    webThreads 0 = 1 ∧ webThreads 50 = 10 ∧ webThreads 3 = 3 :=
  ⟨(web_threads_clamped 0).1.2.2.1 (by decide),
   (web_threads_clamped 50).1.2.2.2.1 (by decide),
   (web_threads_clamped 3).1.2.2.2.2 (by decide) (by decide)⟩

/-- C9 counterexample: from a state where the stop flag is already cleared
and nothing is in flight, the job still dispatches a new download — the
submission loop of `run_job` never reads `_job_active`. -/
theorem dispatch_after_stop :
    Step ⟨[0], [], [], false⟩ ⟨[], [0], [], false⟩ ∧
      (0 : Nat) ∉ (⟨[0], [], [], false⟩ : JobState).inflight :=
  ⟨Step.dispatch 0 [] [] [] false, by simp⟩

/-- C9 (amended). The stop request clears the shared active flag but the job
never consults it: dispatching a pending download is enabled regardless of
the flag, and from any stopped state the job still runs every remaining
descriptor to completion; stop does not prevent any dispatch. -/
theorem stop_flag_not_consulted :
    (∀ (f : Nat) (rest infl comp : List Nat),
      Step ⟨f :: rest, infl, comp, false⟩ ⟨rest, f :: infl, comp, false⟩) ∧
    (∀ (l comp : List Nat),
      Relation.ReflTransGen Step ⟨l, [], comp, false⟩ ⟨[], [], l.reverse ++ comp, false⟩) := by
  constructor
  · intro f rest infl comp
    exact Step.dispatch f rest infl comp false
  · intro l
    induction l with
    | nil => intro comp; simp; exact Relation.ReflTransGen.refl
    | cons x xs ih =>
      intro comp
      have hrw : (x :: xs).reverse ++ comp = xs.reverse ++ (x :: comp) := by simp
      rw [hrw]
      refine Relation.ReflTransGen.head (Step.dispatch x xs [] comp false) ?_
      refine Relation.ReflTransGen.head (Step.complete x xs [] [] comp false) ?_
      exact ih (x :: comp)

/-- C10 (confirmed). In non-dry-run mode, a missing destination triggers
creation of the whole parent-directory chain before the fetch, so a download
that fails has still mutated the filesystem (it created the destination's
directory tree), while the dry-run and skip paths leave it untouched. -/
theorem failed_download_creates_dirs (net : String → List (Option Unit)) (root : String)
    (fs : FS) (fi : FileInfo)
    (hmiss : destPathOf root fi ∉ fs.files)
    (hnet : net fi.url = List.replicate MAX_RETRY none) :
    (download_file net root true fs fi).fs = fs ∧
    (download_file net root false fs fi).outcome = .failed ∧
    (download_file net root false fs fi).fs.files = fs.files ∧
    (∀ d ∈ prefixesOf (destDirOf root fi), d ∈ (download_file net root false fs fi).fs.dirs) ∧
    (destDirOf root fi ∉ fs.dirs → (download_file net root false fs fi).fs ≠ fs) := by
  have hred : download_file net root false fs fi =
      ⟨.failed, ⟨addDirs (prefixesOf (destDirOf root fi)) fs.dirs, fs.files⟩,
        [Event.warn fi.url, Event.warn fi.url, Event.warn fi.url, Event.error fi.url],
        [fi.url]⟩ := by
    simp [download_file, hmiss, hnet, MAX_RETRY, getModel, List.replicate]
  refine ⟨by simp [download_file], by rw [hred], by rw [hred], ?_, ?_⟩
  · intro d hd
    rw [hred]
    exact mem_addDirs_of_mem d _ fs.dirs hd
  · intro hdir heq
    apply hdir
    have hmem : destDirOf root fi ∈ (download_file net root false fs fi).fs.dirs := by
      rw [hred]
      exact mem_addDirs_of_mem _ _ fs.dirs (self_mem_prefixesOf _ (by simp [destDirOf]))
    rw [heq] at hmem
    exact hmem

/-! Sample data for witnesses. -/

def esW : ExamSession :=
  ⟨"https://www.ecexams.co.za/2023gr12.htm", "NSC 2023", "Grade 12", "2023"⟩

def fiW : FileInfo := ⟨"https://www.ecexams.co.za/m.pdf", "Mathematics_P1.pdf", esW⟩

def netFail : String → List (Option Unit) := fun _ => List.replicate MAX_RETRY none

def netOk : String → List (Option Unit) := fun _ => [some ()]

def fsWith : FS := ⟨[], [destPathOf "downloads" fiW]⟩

/-- Witness for C3: one descriptor whose destination already exists. -/
theorem second_run_all_skipped_witness :
    (runDownloads netOk "downloads" false [fiW] fsWith).counts = ⟨0, 1, 0, 0⟩ ∧
    (runDownloads netOk "downloads" false [fiW] fsWith).fs = fsWith ∧
    (runDownloads netOk "downloads" false [fiW] fsWith).fetched = [] ∧
    (∀ (fi : FileInfo) (fs0 : FS), destPathOf "downloads" fi ∈ fs0.files →
      download_file netOk "downloads" false fs0 fi = ⟨.skipped, fs0, [], []⟩) := by
  have h := second_run_all_skipped netOk "downloads" [fiW] fsWith
    (by intro fi hfi; simp only [List.mem_singleton] at hfi; subst hfi; simp [fsWith])
  simpa using h

/-- Witness for C10: a failing fetch against an empty filesystem. -/
theorem failed_download_creates_dirs_witness :
    (download_file netFail "downloads" true ⟨[], []⟩ fiW).fs = (⟨[], []⟩ : FS) ∧
    (download_file netFail "downloads" false ⟨[], []⟩ fiW).outcome = .failed ∧
    (download_file netFail "downloads" false ⟨[], []⟩ fiW).fs.files = (⟨[], []⟩ : FS).files ∧
    (∀ d ∈ prefixesOf (destDirOf "downloads" fiW),
      d ∈ (download_file netFail "downloads" false ⟨[], []⟩ fiW).fs.dirs) ∧
    (destDirOf "downloads" fiW ∉ (⟨[], []⟩ : FS).dirs →
      (download_file netFail "downloads" false ⟨[], []⟩ fiW).fs ≠ (⟨[], []⟩ : FS)) :=
  failed_download_creates_dirs netFail "downloads" ⟨[], []⟩ fiW (by simp) rfl

/-! ## C1: filter semantics -/

lemma indexLoop_mem (gfs yfs : List String) :
    ∀ (links : List Link) (acc : List ExamSession) (s : ExamSession),
      s ∈ indexLoop gfs yfs links acc →
      s ∈ acc ∨ (gradeMatches gfs s.grade = true ∧ yearMatches yfs s.year = true) := by
  intro links
  induction links with
  | nil => intro acc s h; simp only [indexLoop] at h; exact Or.inl h
  | cons a rest ih =>
    intro acc s h
    simp only [indexLoop] at h
    split at h
    · exact ih acc s h
    · split at h
      · exact ih acc s h
      · split at h
        · exact ih acc s h
        · split at h
          · exact ih acc s h
          · split at h
            · exact ih acc s h
            · split at h
              · exact ih acc s h
              · split at h
                · exact ih acc s h
                · rcases ih _ s h with hs | hps
                  · rcases List.mem_append.1 hs with h1 | h2
                    · exact Or.inl h1
                    · simp only [List.mem_singleton] at h2
                      subst h2
                      refine Or.inr ⟨?_, ?_⟩ <;> simp_all
                  · exact Or.inr hps

/-- C1 counterexample: with the non-empty grade filter set containing only
"Grade 1", a session whose inferred grade label is "Grade 12" — not a member
of the set — is still extracted, because the grade match is by substring. -/
theorem grade_filter_matches_nonmember :
    ((indexLoop ["Grade 1"] [] [⟨"gr12.htm", "Grade 12 Exams 2023"⟩] []).map
      (fun s => s.grade)) = ["Grade 12"] ∧ "Grade 12" ∉ ["Grade 1"] := by
  constructor
  · rfl
  · decide

/-- C1 (amended). Empty filter sets match every session. A non-empty year
filter set matches exactly by membership. A non-empty grade filter set
matches a session when some filter string is a substring of the inferred
grade label (not necessarily a member). Every extracted session satisfies
both match predicates. -/
theorem filter_semantics :
    (∀ g y : String, gradeMatches [] g = true ∧ yearMatches [] y = true) ∧
    (∀ (yfs : List String) (y : String),
      yearMatches yfs y = true ↔ yfs = [] ∨ y ∈ yfs) ∧
    (∀ (gfs : List String) (g : String),
      gradeMatches gfs g = true ↔
        gfs = [] ∨ ∃ gf ∈ gfs, containsSub gf.toList g.toList = true) ∧
    (∀ (gfs yfs : List String) (links : List Link) (s : ExamSession),
      s ∈ indexLoop gfs yfs links [] →
      gradeMatches gfs s.grade = true ∧ yearMatches yfs s.year = true) := by
  refine ⟨?_, ?_, ?_, ?_⟩
  · intro g y; simp [gradeMatches, yearMatches]
  · intro yfs y
    simp [yearMatches, List.isEmpty_iff]
  · intro gfs g
    simp [gradeMatches, List.isEmpty_iff, List.any_eq_true]
  · intro gfs yfs links s h
    rcases indexLoop_mem gfs yfs links [] s h with h0 | hps
    · simp at h0
    · exact hps

/-- Witness for C1's quantified parts at a concrete extracted session. -/
theorem filter_semantics_witness :
    gradeMatches ["Grade 12"] "Grade 12" = true ∧ yearMatches ["2023"] "2023" = true :=
  (filter_semantics).2.2.2 ["Grade 12"] ["2023"] [⟨"gr12.htm", "Grade 12 Exams 2023"⟩]
    ⟨"https://www.ecexams.co.za/gr12.htm", "Grade 12 Exams 2023", "Grade 12", "2023"⟩
    (by decide)

/-! ## C7: classifier vectors -/

/-- C7 counterexample: the year regex `\b(20\d{2})\b` requires word
boundaries, so an href that merely *contains* "2021" — here "gec2021.htm",
where "2021" is preceded by the word character 'c' — yields no year at all:
the fallback produces "Unknown Year", not "2021". -/
theorem href_contains_year_insufficient :
    containsSub "2021".toList "gec2021.htm".toList = true ∧
    detect_year "gec2021.htm" = "Unknown Year" ∧
    inferYear "GEC November Paper" "gec2021.htm" = "Unknown Year" := by
  refine ⟨?_, ?_, ?_⟩ <;> decide

/-- C7 (amended). The classifier vectors hold as stated, except that the
href fallback yields "2021" only when "2021" occurs in the href delimited by
word boundaries (e.g. "gec-2021.htm"): "Grade 12 November Examination 2023"
gives grade "Grade 12" and year "2023"; "GEC November Paper" (no 4-digit
year) gives grade "Grade 9 (GEC)" and, with a boundary-delimited href, year
"2021" via the fallback; text with no grade signal gives "Other"; the year
from the visible text takes precedence over the href. -/
theorem classifier_vectors :
    detect_grade "Grade 12 November Examination 2023" = "Grade 12" ∧
    detect_year "Grade 12 November Examination 2023" = "2023" ∧
    inferYear "Grade 12 November Examination 2023" "papers.htm" = "2023" ∧
    detect_grade "GEC November Paper" = "Grade 9 (GEC)" ∧
    detect_year "GEC November Paper" = "Unknown Year" ∧
    inferYear "GEC November Paper" "gec-2021.htm" = "2021" ∧
    detect_grade "Mathematics Paper One" = "Other" ∧
    inferYear "Papers 2019" "gec-2021.htm" = "2019" := by
  refine ⟨?_, ?_, ?_, ?_, ?_, ?_, ?_, ?_⟩ <;> decide

/-! ## C5: filename invariant -/

lemma sanitise_length_le (l : List Char) : (sanitise l).length ≤ 120 := by
  simp only [sanitise, List.length_take]
  exact min_le_left _ _

lemma collapseWs_mem : ∀ (b : Bool) (l : List Char) (c : Char),
    c ∈ collapseWs b l → c = ' ' ∨ c ∈ l := by
  intro b l
  induction l generalizing b with
  | nil => intro c hc; simp [collapseWs] at hc
  | cons d cs ih =>
    intro c hc
    simp only [collapseWs] at hc
    split at hc
    · split at hc
      · rcases ih true c hc with h | h
        · exact Or.inl h
        · exact Or.inr (List.mem_cons_of_mem d h)
      · rcases List.mem_cons.1 hc with rfl | hc
        · exact Or.inl rfl
        · rcases ih true c hc with h | h
          · exact Or.inl h
          · exact Or.inr (List.mem_cons_of_mem d h)
    · rcases List.mem_cons.1 hc with rfl | hc
      · exact Or.inr (List.mem_cons_self c cs)
      · rcases ih false c hc with h | h
        · exact Or.inl h
        · exact Or.inr (List.mem_cons_of_mem d h)

lemma collapseWs_ws_eq_space : ∀ (b : Bool) (l : List Char) (c : Char),
    c ∈ collapseWs b l → isPySpace c = true → c = ' ' := by
  intro b l
  induction l generalizing b with
  | nil => intro c hc; simp [collapseWs] at hc
  | cons d cs ih =>
    intro c hc hws
    simp only [collapseWs] at hc
    split at hc
    · split at hc
      · exact ih true c hc hws
      · rcases List.mem_cons.1 hc with rfl | hc
        · rfl
        · exact ih true c hc hws
    · rcases List.mem_cons.1 hc with rfl | hc
      · simp_all
      · exact ih false c hc hws

lemma mem_pyStrip {c : Char} {l : List Char} (h : c ∈ pyStrip l) : c ∈ l := by
  simp only [pyStrip, List.mem_reverse] at h
  have h1 : c ∈ (l.dropWhile isPySpace).reverse := (List.dropWhile_sublist _).subset h
  rw [List.mem_reverse] at h1
  exact (List.dropWhile_sublist _).subset h1

lemma mem_sanitise {c : Char} {l : List Char} (h : c ∈ sanitise l) :
    isIllegal c = false ∧ (isPySpace c = true → c = ' ') := by
  simp only [sanitise] at h
  have h1 := mem_pyStrip ((List.take_sublist _ _).subset h)
  refine ⟨?_, collapseWs_ws_eq_space _ _ _ h1⟩
  rcases collapseWs_mem _ _ _ h1 with rfl | h2
  · decide
  · have := (List.mem_filter.1 h2).2
    simpa using this

/-- Characterisation of the descriptors produced by the session extractor:
each one comes from a link of the page whose extension passed the document
filter; its URL is that link's href resolved against the session's URL and
its filename is `mkFilename` of that link's raw name and that link's
extension. -/
lemma sessLoop_filename (es : ExamSession) :
    ∀ (links : List Link) (seen : List String) (fi : FileInfo),
      fi ∈ sessLoop es links seen →
      ∃ a ∈ links, linkExt a ∈ docExts ∧ fi.url = urljoin es.url (pyStrip a.href.toList) ∧
        fi.filename = mkFilename (linkRaw a) (linkExt a) := by
  intro links
  induction links with
  | nil => intro seen fi h; simp [sessLoop] at h
  | cons a rest ih =>
    intro seen fi h
    simp only [sessLoop] at h
    split at h
    · obtain ⟨b, hb, hrest⟩ := ih seen fi h
      exact ⟨b, List.mem_cons_of_mem a hb, hrest⟩
    · rename_i hkeep
      split at h
      · obtain ⟨b, hb, hrest⟩ := ih seen fi h
        exact ⟨b, List.mem_cons_of_mem a hb, hrest⟩
      · rcases List.mem_cons.1 h with rfl | h
        · have hkeep' : docExts.contains (linkExt a) = true := by
            cases hcc : docExts.contains (linkExt a)
            · rw [hcc] at hkeep; exact absurd hkeep (by simp)
            · rfl
          refine ⟨a, List.mem_cons_self a rest, List.mem_of_elem_eq_true hkeep', ?_, ?_⟩
          · with_reducible rfl
          · with_reducible rfl
        · obtain ⟨b, hb, hrest⟩ := ih _ fi h
          exact ⟨b, List.mem_cons_of_mem a hb, hrest⟩

lemma ext_facts : ∀ ext ∈ docExts, ext.length ≤ 5 ∧ (∀ c ∈ ext, isIllegal c = false) ∧
    lowerL ext = ext := by decide

lemma isPrefixOf_self_append : ∀ (l t : List Char), List.isPrefixOf l (l ++ t) = true
  | [], _ => by simp [List.isPrefixOf]
  | c :: cs, t => by simp [List.isPrefixOf, isPrefixOf_self_append cs t]

lemma endsWithL_append (ext x : List Char) : endsWithL ext (x ++ ext) = true := by
  simp only [endsWithL, List.isSuffixOf, List.reverse_append]
  exact isPrefixOf_self_append ext.reverse x.reverse

set_option maxRecDepth 8000 in
/-- C5 counterexample: a link whose visible text is 121 characters long
yields a filename of 124 characters — the extension is appended after the
120-character cap, so the claimed bound of 120 fails. -/
theorem filename_over_120 :
    ((sessLoop esW [⟨"doc.pdf", (List.replicate 121 'a').asString⟩] []).map
      (fun fi => fi.filename.length)) = [124] ∧ ¬(124 ≤ 120) := by
  refine ⟨?_, by decide⟩
  decide

/-- The three filename properties hold of `mkFilename` for any document
extension: bounded length, legal characters, and the given extension as a
case-insensitive suffix. -/
lemma mkFilename_props (raw : String) (ext : List Char) (hext : ext ∈ docExts) :
    (mkFilename raw ext).length ≤ 125 ∧
    (∀ c ∈ (mkFilename raw ext).toList, isIllegal c = false) ∧
    endsWithL ext (lowerL (mkFilename raw ext).toList) = true := by
  obtain ⟨hlen5, hleg, hlow⟩ := ext_facts ext hext
  simp only [mkFilename]
  split
  · rename_i hends
    refine ⟨?_, ?_, ?_⟩
    · show (sanitise raw.toList).length ≤ 125
      exact le_trans (sanitise_length_le _) (by omega)
    · intro c hc
      exact (mem_sanitise hc).1
    · exact hends
  · refine ⟨?_, ?_, ?_⟩
    · show (sanitise raw.toList ++ ext).length ≤ 125
      rw [List.length_append]
      have := sanitise_length_le raw.toList
      omega
    · intro c hc
      rcases List.mem_append.1 hc with hc | hc
      · exact (mem_sanitise hc).1
      · exact hleg c hc
    · show endsWithL ext (lowerL (sanitise raw.toList ++ ext)) = true
      simp only [lowerL, List.map_append]
      rw [show List.map Char.toLower ext = lowerL ext from rfl, hlow]
      exact endsWithL_append ext _

/-- C5 (amended). Every filename produced by the session extractor is at
most 125 characters (120 from the sanitised name plus up to 5 for the
appended extension), contains none of the illegal characters, and ends —
case-insensitively — in the document extension of the very link the
descriptor came from (the descriptor's URL is that link's resolved href,
and its filename is built from that link's raw name and extension), the
extension being appended when the sanitised name does not already end in
it. -/
theorem filename_invariant (es : ExamSession) (links : List Link) (fi : FileInfo)
    (h : fi ∈ sessLoop es links []) :
    fi.filename.length ≤ 125 ∧
    (∀ c ∈ fi.filename.toList, isIllegal c = false) ∧
    ∃ a ∈ links, linkExt a ∈ docExts ∧ fi.url = urljoin es.url (pyStrip a.href.toList) ∧
      fi.filename = mkFilename (linkRaw a) (linkExt a) ∧
      endsWithL (linkExt a) (lowerL fi.filename.toList) = true := by
  obtain ⟨a, ha, hext, hurl, hfn⟩ := sessLoop_filename es links [] fi h
  obtain ⟨h125, hchars, hsuf⟩ := mkFilename_props (linkRaw a) (linkExt a) hext
  rw [hfn]
  exact ⟨h125, hchars, a, ha, hext, hurl, rfl, hsuf⟩

/-! ## C4: sanitizer idempotence

The sanitizer is *not* idempotent: truncation to 120 characters can cut a
word boundary and leave a trailing space, which a second application strips.
It *is* idempotent whenever its output does not end in a space, proved via
the invariants of its output: no illegal characters, every whitespace
character is a single ' ' with no two adjacent, no leading whitespace. -/

/-- No two adjacent whitespace characters. -/
def NotBothWs (a b : Char) : Prop := isPySpace a = false ∨ isPySpace b = false

lemma collapseWs_head_not_ws :
    ∀ (l : List Char) (c : Char), (collapseWs true l).head? = some c → isPySpace c = false := by
  intro l
  induction l with
  | nil => intro c hc; simp [collapseWs] at hc
  | cons d cs ih =>
    intro c hc
    simp only [collapseWs] at hc
    split at hc
    · exact ih c hc
    · rename_i hd
      rw [List.head?_cons, Option.some_inj] at hc
      subst hc
      exact Bool.not_eq_true _ ▸ hd

lemma collapseWs_chain : ∀ (b : Bool) (l : List Char),
    List.Chain' NotBothWs (collapseWs b l) := by
  intro b l
  induction l generalizing b with
  | nil => simp [collapseWs]
  | cons d cs ih =>
    simp only [collapseWs]
    split
    · split
      · exact ih true
      · rw [List.chain'_cons']
        exact ⟨fun y hy => Or.inr (collapseWs_head_not_ws cs y hy), ih true⟩
    · rename_i hd
      rw [List.chain'_cons']
      exact ⟨fun y _ => Or.inl (Bool.not_eq_true _ ▸ hd), ih false⟩

lemma collapseWs_eq_self : ∀ (l : List Char),
    (∀ c ∈ l, isPySpace c = true → c = ' ') → List.Chain' NotBothWs l →
    collapseWs false l = l ∧
      ((∀ c, l.head? = some c → isPySpace c = false) → collapseWs true l = l) := by
  intro l
  induction l with
  | nil => exact fun _ _ => ⟨rfl, fun _ => rfl⟩
  | cons d cs ih =>
    intro hsp hch
    obtain ⟨hR, hchcs⟩ := List.chain'_cons'.1 hch
    obtain ⟨ihF, ihT⟩ := ih (fun c hc h => hsp c (List.mem_cons_of_mem d hc) h) hchcs
    constructor
    · simp only [collapseWs]
      by_cases hd : isPySpace d = true
      · rw [if_pos hd]
        have hd' : d = ' ' := hsp d (List.mem_cons_self d cs) hd
        have hT : collapseWs true cs = cs := ihT (fun c hc => by
          rcases hR c (by simp [hc]) with h1 | h2
          · rw [hd] at h1; exact absurd h1 (by simp)
          · exact h2)
        rw [hT, hd']
        simp
      · rw [if_neg hd, ihF]
    · intro hhead
      have hd : isPySpace d = false := hhead d rfl
      simp only [collapseWs]
      rw [if_neg (by simp [hd]), ihF]

lemma chain'_dropWhile {R : Char → Char → Prop} (p : Char → Bool) :
    ∀ (l : List Char), List.Chain' R l → List.Chain' R (l.dropWhile p) := by
  intro l
  induction l with
  | nil => intro _; simp [List.dropWhile]
  | cons d cs ih =>
    intro h
    simp only [List.dropWhile]
    split
    · exact ih h.tail
    · exact h

lemma chain'_NotBothWs_reverse {l : List Char} (h : List.Chain' NotBothWs l) :
    List.Chain' NotBothWs l.reverse := by
  rw [List.chain'_reverse]
  exact h.imp (fun a b hab => hab.symm)

lemma head_dropWhile_not (p : Char → Bool) :
    ∀ (l : List Char) (c : Char), (l.dropWhile p).head? = some c → p c = false := by
  intro l
  induction l with
  | nil => intro c hc; simp [List.dropWhile] at hc
  | cons d cs ih =>
    intro c hc
    simp only [List.dropWhile] at hc
    split at hc
    · exact ih c hc
    · rename_i hd
      rw [List.head?_cons, Option.some_inj] at hc
      subst hc
      exact Bool.not_eq_true _ ▸ hd

lemma dropWhile_eq_self_of_head (p : Char → Bool) (l : List Char)
    (h : ∀ c, l.head? = some c → p c = false) : l.dropWhile p = l := by
  cases l with
  | nil => rfl
  | cons d cs => simp [List.dropWhile, h d rfl]

/-- Stripping trailing whitespace yields a prefix of the left-stripped list. -/
lemma pyStrip_prefixOf_dropWhile (l : List Char) : pyStrip l <+: l.dropWhile isPySpace := by
  have h1 : (l.dropWhile isPySpace).reverse.dropWhile isPySpace <:+
      (l.dropWhile isPySpace).reverse := List.dropWhile_suffix isPySpace
  have h2 := List.reverse_prefix.2 (by simpa using h1)
  simpa [pyStrip] using h2

lemma head?_eq_of_isPrefixOf {l₁ l₂ : List Char} (h : l₁ <+: l₂) (hne : l₁ ≠ []) :
    l₁.head? = l₂.head? := by
  obtain ⟨t, rfl⟩ := h
  cases l₁ with
  | nil => exact absurd rfl hne
  | cons d cs => rfl

lemma chain'_sanitise (l : List Char) : List.Chain' NotBothWs (sanitise l) := by
  have h0 := collapseWs_chain false (l.filter (fun c => !isIllegal c))
  have h1 := chain'_dropWhile isPySpace _ h0
  have h2 := chain'_NotBothWs_reverse h1
  have h3 := chain'_dropWhile isPySpace _ h2
  have h4 := chain'_NotBothWs_reverse h3
  exact (show List.Chain' NotBothWs (pyStrip (collapseWs false
    (l.filter (fun c => !isIllegal c)))) from h4).take 120

lemma sanitise_head_not_ws (l : List Char) :
    ∀ c, (sanitise l).head? = some c → isPySpace c = false := by
  intro c hc
  have hyne : sanitise l ≠ [] := by
    intro he; rw [he] at hc; simp at hc
  have htp := List.take_prefix 120 (pyStrip (collapseWs false (l.filter (fun c => !isIllegal c))))
  have h1 : (sanitise l).head? =
      (pyStrip (collapseWs false (l.filter (fun c => !isIllegal c)))).head? :=
    head?_eq_of_isPrefixOf htp hyne
  have hzne : pyStrip (collapseWs false (l.filter (fun c => !isIllegal c))) ≠ [] := by
    intro he
    rw [h1, he] at hc; simp at hc
  have hsp := pyStrip_prefixOf_dropWhile (collapseWs false (l.filter (fun c => !isIllegal c)))
  have h2 := head?_eq_of_isPrefixOf hsp hzne
  exact head_dropWhile_not isPySpace _ c (by rw [← h2, ← h1]; exact hc)

/-- Core idempotence: when the sanitised output does not end in a space, a
second sanitisation is the identity on it. -/
lemma sanitise_sanitise (l : List Char) (h : (sanitise l).getLast? ≠ some ' ') :
    sanitise (sanitise l) = sanitise l := by
  have hmem : ∀ c ∈ sanitise l, isIllegal c = false ∧ (isPySpace c = true → c = ' ') :=
    fun c hc => mem_sanitise hc
  have hfilter : (sanitise l).filter (fun c => !isIllegal c) = sanitise l :=
    List.filter_eq_self.2 (fun c hc => by simp [(hmem c hc).1])
  have hcollapse : collapseWs false (sanitise l) = sanitise l :=
    (collapseWs_eq_self (sanitise l) (fun c hc => (hmem c hc).2) (chain'_sanitise l)).1
  have hleft : (sanitise l).dropWhile isPySpace = sanitise l :=
    dropWhile_eq_self_of_head _ _ (sanitise_head_not_ws l)
  have hright : (sanitise l).reverse.dropWhile isPySpace = (sanitise l).reverse := by
    apply dropWhile_eq_self_of_head
    intro c hc
    rw [List.head?_reverse] at hc
    by_contra hws
    rw [Bool.not_eq_false] at hws
    have hc' : c = ' ' := (hmem c (List.mem_of_mem_getLast? hc)).2 hws
    rw [hc'] at hc
    exact h hc
  have hstrip : pyStrip (sanitise l) = sanitise l := by
    rw [pyStrip, hleft, hright, List.reverse_reverse]
  have hlen : (sanitise l).length ≤ 120 := sanitise_length_le l
  show (pyStrip (collapseWs false ((sanitise l).filter (fun c => !isIllegal c)))).take 120
      = sanitise l
  rw [hfilter, hcollapse, hstrip, List.take_of_length_le hlen]

set_option maxRecDepth 8000 in
/-- C4 counterexample: for the 121-character input of 119 'a's, a space and
a 'b', the first sanitisation truncates to 119 'a's plus a trailing space,
and the second strips that space — `sanitise (sanitise x) ≠ sanitise x`. -/
theorem sanitise_not_idempotent :
    sanitiseS (sanitiseS ((List.replicate 119 'a' ++ [' ', 'b']).asString)) ≠
      sanitiseS ((List.replicate 119 'a' ++ [' ', 'b']).asString) := by
  decide

/-- C4 (amended). The sanitizer removes the illegal characters, collapses
whitespace runs, trims and truncates to 120; it is idempotent on every input
whose sanitised output does not end in a space (truncation at 120 characters
can leave a trailing space which a second application strips — the only
failure of idempotence). -/
theorem sanitise_idempotent_unless_trailing_space (x : String)
    (h : (sanitiseS x).toList.getLast? ≠ some ' ') :
    sanitiseS (sanitiseS x) = sanitiseS x :=
  congrArg List.asString (sanitise_sanitise x.toList h)

/-- Witness for C4 at a concrete input with internal whitespace. -/
theorem sanitise_idempotent_witness : sanitiseS (sanitiseS "a  b\tc ") = sanitiseS "a  b\tc " :=
  sanitise_idempotent_unless_trailing_space "a  b\tc " (by decide)

/-- Witness for C5 at a concrete session page. -/
theorem filename_invariant_witness :
    (⟨"https://www.ecexams.co.za/arch.zip", "Archive 2023.zip", esW⟩ : FileInfo).filename.length
        ≤ 125 ∧
    (∀ c ∈ (⟨"https://www.ecexams.co.za/arch.zip", "Archive 2023.zip", esW⟩ :
        FileInfo).filename.toList, isIllegal c = false) ∧
    ∃ a ∈ [(⟨"arch.zip", "Archive 2023"⟩ : Link)], linkExt a ∈ docExts ∧
      (⟨"https://www.ecexams.co.za/arch.zip", "Archive 2023.zip", esW⟩ : FileInfo).url =
        urljoin esW.url (pyStrip a.href.toList) ∧
      (⟨"https://www.ecexams.co.za/arch.zip", "Archive 2023.zip", esW⟩ : FileInfo).filename =
        mkFilename (linkRaw a) (linkExt a) ∧
      endsWithL (linkExt a) (lowerL (⟨"https://www.ecexams.co.za/arch.zip",
        "Archive 2023.zip", esW⟩ : FileInfo).filename.toList) = true :=
  filename_invariant esW [⟨"arch.zip", "Archive 2023"⟩]
    ⟨"https://www.ecexams.co.za/arch.zip", "Archive 2023.zip", esW⟩ (by decide)

end Ecexams
